import Mathlib

/-!
Verification of the Totem partitioning subsystem (totem_partition.h).

The vertex-id codec and the default-attributes record are embedded directly
from the header `src/src/totem/totem_partition.h`.  The type `id_t` comes from
`totem_graph.h`, which is not among the sources, so its byte size is kept as a
parameter `s` (`sizeof(id_t)`); machine integers of width `8*s` bits are
modelled as natural numbers with an explicit `% 2 ^ (s * 8)` where a C
operation could overflow.

The bodies of `partition_random`, `partition_set_initialize` and `totem_init`
are declared but not defined in the sources; they are modelled from the
specification (spec.md sections 4.2-4.4), as marked in their doc comments.
-/

namespace Totem

/-! ## Vertex-id codec (macros of totem_partition.h, lines 19-52) -/

/-- Macro `#define MAX_LOG_PARTITION_COUNT 2` -/
def MAX_LOG_PARTITION_COUNT : Nat := 2

/-- Macro `#define MAX_PARTITION_COUNT (1 << (MAX_LOG_PARTITION_COUNT))` -/
def MAX_PARTITION_COUNT : Nat := 1 <<< MAX_LOG_PARTITION_COUNT

/-- Macro `#define MAX_LOG_VERTEX_COUNT ((sizeof(id_t) * 8) - MAX_LOG_PARTITION_COUNT)`.
`s` stands for `sizeof(id_t)`. -/
def MAX_LOG_VERTEX_COUNT (s : Nat) : Nat := s * 8 - MAX_LOG_PARTITION_COUNT

/-- Macro `#define VERTEX_ID_MASK (((id_t)-1) >> MAX_LOG_PARTITION_COUNT)`:
`(id_t)-1` is the all-ones word `2 ^ (s*8) - 1`. -/
def VERTEX_ID_MASK (s : Nat) : Nat := (2 ^ (s * 8) - 1) >>> MAX_LOG_PARTITION_COUNT

/-- Macro `#define GET_PARTITION_ID(_vid) ((_vid) >> (MAX_LOG_VERTEX_COUNT))` -/
def GET_PARTITION_ID (s vid : Nat) : Nat := vid >>> MAX_LOG_VERTEX_COUNT s

/-- Macro `#define GET_VERTEX_ID(_vid) ((_vid) & VERTEX_ID_MASK)` -/
def GET_VERTEX_ID (s vid : Nat) : Nat := vid &&& VERTEX_ID_MASK s

/-- Macro `#define SET_PARTITION_ID(_vid, _pid) ((_vid) | ((_pid) << MAX_LOG_VERTEX_COUNT))`,
truncated to the width of `id_t` as the C assignment to an `id_t` lvalue is. -/
def SET_PARTITION_ID (s vid pid : Nat) : Nat :=
  (vid ||| pid <<< MAX_LOG_VERTEX_COUNT s) % 2 ^ (s * 8)

/-! Basic facts about the codec. -/

theorem vertex_id_mask_eq (s : Nat) (hs : 1 ≤ s) :
    VERTEX_ID_MASK s = 2 ^ MAX_LOG_VERTEX_COUNT s - 1 := by
  have hk : s * 8 = MAX_LOG_VERTEX_COUNT s + 2 := by
    unfold MAX_LOG_VERTEX_COUNT MAX_LOG_PARTITION_COUNT
    omega
  unfold VERTEX_ID_MASK MAX_LOG_PARTITION_COUNT
  rw [Nat.shiftRight_eq_div_pow, hk, pow_add]
  have hpos : 0 < 2 ^ MAX_LOG_VERTEX_COUNT s := Nat.two_pow_pos _
  omega

theorem lor_shiftLeft_eq_add (k v p : Nat) (hv : v < 2 ^ k) :
    v ||| p <<< k = 2 ^ k * p + v := by
  rw [Nat.shiftLeft_eq, Nat.lor_comm, mul_comm p (2 ^ k)]
  exact (Nat.mul_add_lt_is_or hv p).symm

theorem set_get_roundtrip (s p v : Nat) (hs : 1 ≤ s) (hp : p < 4)
    (hv : v < 2 ^ (s * 8 - 2)) :
    GET_PARTITION_ID s (SET_PARTITION_ID s v p) = p ∧
    GET_VERTEX_ID s (SET_PARTITION_ID s v p) = v := by
  have hk : s * 8 = MAX_LOG_VERTEX_COUNT s + 2 := by
    unfold MAX_LOG_VERTEX_COUNT MAX_LOG_PARTITION_COUNT
    omega
  have hv' : v < 2 ^ MAX_LOG_VERTEX_COUNT s := by
    unfold MAX_LOG_VERTEX_COUNT MAX_LOG_PARTITION_COUNT
    exact hv
  have hpos : 0 < 2 ^ MAX_LOG_VERTEX_COUNT s := Nat.two_pow_pos _
  have hset : SET_PARTITION_ID s v p = 2 ^ MAX_LOG_VERTEX_COUNT s * p + v := by
    unfold SET_PARTITION_ID
    rw [lor_shiftLeft_eq_add _ _ _ hv']
    apply Nat.mod_eq_of_lt
    rw [hk, pow_add]
    have : 2 ^ MAX_LOG_VERTEX_COUNT s * p + v
        < 2 ^ MAX_LOG_VERTEX_COUNT s * (p + 1) := by
      rw [Nat.mul_add, Nat.mul_one]
      omega
    calc 2 ^ MAX_LOG_VERTEX_COUNT s * p + v
        < 2 ^ MAX_LOG_VERTEX_COUNT s * (p + 1) := this
      _ ≤ 2 ^ MAX_LOG_VERTEX_COUNT s * 2 ^ 2 := by
          apply Nat.mul_le_mul_left
          omega
  constructor
  · unfold GET_PARTITION_ID
    rw [hset, Nat.shiftRight_eq_div_pow, Nat.mul_add_div hpos,
      Nat.div_eq_of_lt hv', Nat.add_zero]
  · unfold GET_VERTEX_ID
    rw [hset, vertex_id_mask_eq s hs, Nat.and_pow_two_sub_one_eq_mod,
      Nat.mul_add_mod, Nat.mod_eq_of_lt hv']

/-- C1: for every partition tag `p < 4` and local id `v` below the local-id
bit budget `2 ^ (8 * sizeof(id_t) - 2)`, decoding `SET_PARTITION_ID(v, p)`
with `GET_PARTITION_ID` returns `p` and with `GET_VERTEX_ID` returns `v`. -/
theorem c1_codec_roundtrip (s p v : Nat) (hs : 1 ≤ s) (hp : p < 4)
    (hv : v < 2 ^ (s * 8 - 2)) :
    GET_PARTITION_ID s (SET_PARTITION_ID s v p) = p ∧
    GET_VERTEX_ID s (SET_PARTITION_ID s v p) = v :=
  set_get_roundtrip s p v hs hp hv

theorem c1_codec_roundtrip_witness :
    GET_PARTITION_ID 4 (SET_PARTITION_ID 4 5 3) = 3 ∧
    GET_VERTEX_ID 4 (SET_PARTITION_ID 4 5 3) = 5 :=
  c1_codec_roundtrip 4 3 5 (by norm_num) (by norm_num) (by norm_num)

/-- C10: for every `id_t` value `g` (that is, every `g < 2 ^ (8 * sizeof(id_t))`),
re-encoding the decoded parts reconstructs `g` exactly, and the decoded tag
is always below `MAX_PARTITION_COUNT = 4`, with no further precondition. -/
theorem c10_codec_decompose (s g : Nat) (hs : 1 ≤ s) (hg : g < 2 ^ (s * 8)) :
    SET_PARTITION_ID s (GET_VERTEX_ID s g) (GET_PARTITION_ID s g) = g ∧
    GET_PARTITION_ID s g < MAX_PARTITION_COUNT := by
  have hk : s * 8 = MAX_LOG_VERTEX_COUNT s + 2 := by
    unfold MAX_LOG_VERTEX_COUNT MAX_LOG_PARTITION_COUNT
    omega
  have hpos : 0 < 2 ^ MAX_LOG_VERTEX_COUNT s := Nat.two_pow_pos _
  have hvert : GET_VERTEX_ID s g = g % 2 ^ MAX_LOG_VERTEX_COUNT s := by
    unfold GET_VERTEX_ID
    rw [vertex_id_mask_eq s hs, Nat.and_pow_two_sub_one_eq_mod]
  have hpart : GET_PARTITION_ID s g = g / 2 ^ MAX_LOG_VERTEX_COUNT s := by
    unfold GET_PARTITION_ID
    rw [Nat.shiftRight_eq_div_pow]
  constructor
  · unfold SET_PARTITION_ID
    rw [hvert, hpart,
      lor_shiftLeft_eq_add _ _ _ (Nat.mod_lt _ hpos),
      Nat.div_add_mod, Nat.mod_eq_of_lt hg]
  · rw [hpart]
    have h4 : MAX_PARTITION_COUNT = 2 ^ 2 := by decide
    rw [h4, Nat.div_lt_iff_lt_mul hpos, ← pow_add, Nat.add_comm, ← hk]
    exact hg

theorem c10_codec_decompose_witness :
    SET_PARTITION_ID 4 (GET_VERTEX_ID 4 3221225479) (GET_PARTITION_ID 4 3221225479)
      = 3221225479 ∧
    GET_PARTITION_ID 4 3221225479 < MAX_PARTITION_COUNT :=
  c10_codec_decompose 4 3221225479 (by norm_num) (by norm_num)

/-! ## Graph data model

The `graph_t` type of `totem_graph.h` is not among the sources, so it is
modelled from the spec (section 3): an immutable CSR-style adjacency
structure.  The CSR rows are represented as one list of target ids per vertex
(`adj`); the CSR edges array is `adj.flatten`, and the offsets array is
recoverable as the partial sums of the row lengths.  Edge-weight values carry
no claim here, so only the `weighted` flag is kept. -/

structure graph_t where
  adj : List (List Nat)
  weighted : Bool
deriving DecidableEq

def graph_t.vertex_count (g : graph_t) : Nat := g.adj.length

def graph_t.edge_count (g : graph_t) : Nat := (g.adj.map List.length).sum

/-- Well-formed graph: every edge target is a vertex of the graph. -/
def graph_t.valid (g : graph_t) : Prop :=
  ∀ l ∈ g.adj, ∀ u ∈ l, u < g.adj.length

instance (g : graph_t) : Decidable g.valid := by
  unfold graph_t.valid
  infer_instance

/-! ## Partition-set builder, modelled from the spec (section 4.3)

`partition_set_initialize` is declared in `totem_partition.h` (line 107) but
its body is not among the sources; the builder below is modelled from the
spec's steps 1-6. -/

/-- Modelled from the spec: the body of `partition_set_initialize` is missing
from the sources.  Spec 4.3 step 4: the local id of global vertex `u` is its
rank among the vertices of its own partition, local ids being handed out in
increasing order of first occurrence; so it equals the number of earlier
vertices carrying the same label. -/
def localId (labels : List Nat) (u : Nat) : Nat :=
  (labels.take u).count (labels.getD u 0)

/-- Modelled from the spec (4.3 step 2): the vertices labeled for partition
`p`, in increasing global-id order. -/
def ownedVertices (labels : List Nat) (p : Nat) : List Nat :=
  (List.range labels.length).filter (fun v => labels.getD v 0 == p)

/-- Modelled from the spec (4.3 step 5): the stored edges-array entry, in
partition `p`, for an edge whose global target is `u`: the plain local id when
the target lives in `p`, and the codec encoding of the target's local id and
partition tag otherwise. -/
def encodeTarget (s : Nat) (labels : List Nat) (p u : Nat) : Nat :=
  if labels.getD u 0 = p then localId labels u
  else SET_PARTITION_ID s (localId labels u) (labels.getD u 0)

/-- Modelled from the spec (4.3 steps 2-5): the rewritten adjacency rows of
partition `p`, one row per owned vertex in local-id order. -/
def partitionRows (s : Nat) (g : graph_t) (labels : List Nat) (p : Nat) :
    List (List Nat) :=
  (ownedVertices labels p).map
    (fun v => (g.adj.getD v []).map (encodeTarget s labels p))

/-- The `partition_s` struct of `totem_partition.h` (lines 60-66), minus the
weights array (edge-weight values carry no claim). -/
structure partition_t where
  vertices : List Nat
  edges : List Nat
  vertex_count : Nat
  edge_count : Nat
deriving DecidableEq

instance : Inhabited partition_t := ⟨⟨[], [], 0, 0⟩⟩

/-- CSR offsets array of a row-length list: partial sums, length one more
than the number of rows. -/
def offsetsOf (degs : List Nat) : List Nat :=
  (List.range (degs.length + 1)).map (fun i => (degs.take i).sum)

/-- Modelled from the spec (4.3 steps 2-5): the partition of tag `p`. -/
def mkPartition (s : Nat) (g : graph_t) (labels : List Nat) (p : Nat) :
    partition_t :=
  ⟨offsetsOf ((partitionRows s g labels p).map List.length),
   (partitionRows s g labels p).flatten,
   (ownedVertices labels p).length,
   (partitionRows s g labels p).flatten.length⟩

/-- The `partition_set_s` struct of `totem_partition.h` (lines 73-78); the
back-reference to the graph is left out (the set borrows, never mutates it). -/
structure partition_set_t where
  weighted : Bool
  partitions : List partition_t
  partition_count : Nat
deriving DecidableEq

instance : Inhabited partition_set_t := ⟨⟨false, [], 0⟩⟩

/-- Modelled from the spec: the body of `partition_set_initialize` is missing
from the sources.  Spec 4.3: step 1 validates the partition count and the
labels; section 7 additionally requires encoding overflow (more local vertices
in one partition than the id budget allows) to be rejected rather than
silently truncated; then steps 2-5 build the per-partition structures. -/
def build (s : Nat) (g : graph_t) (labels : List Nat) (pc : Nat) :
    Option partition_set_t :=
  if 1 ≤ pc ∧ pc ≤ 4 ∧ labels.length = g.vertex_count
      ∧ (∀ l ∈ labels, l < pc)
      ∧ (∀ p ∈ List.range pc,
          (ownedVertices labels p).length ≤ 2 ^ MAX_LOG_VERTEX_COUNT s)
  then some ⟨g.weighted, (List.range pc).map (mkPartition s g labels), pc⟩
  else none

/-! ## Sum helpers for the conservation claim -/

theorem sum_finset_range_eq_sum_map (n : Nat) (f : Nat → Nat) :
    ∑ p in Finset.range n, f p = ((List.range n).map f).sum := rfl

theorem sum_map_filter_classes (pc : Nat) (P f : Nat → Nat) :
    ∀ L : List Nat, (∀ v ∈ L, P v < pc) →
      ∑ p in Finset.range pc, ((L.filter (fun v => P v == p)).map f).sum
        = (L.map f).sum := by
  intro L
  induction L with
  | nil => intro _; simp
  | cons a L ih =>
    intro h
    have ha : P a < pc := h a (List.mem_cons_self a L)
    have hL : ∀ v ∈ L, P v < pc := fun v hv => h v (List.mem_cons_of_mem a hv)
    have step : ∀ p ∈ Finset.range pc,
        (((a :: L).filter (fun v => P v == p)).map f).sum
          = (if P a = p then f a else 0)
            + ((L.filter (fun v => P v == p)).map f).sum := by
      intro p _
      rcases eq_or_ne (P a) p with hp | hp
      · simp [List.filter_cons, hp]
      · simp [List.filter_cons, hp]
    rw [Finset.sum_congr rfl step, Finset.sum_add_distrib, ih hL,
      Finset.sum_ite_eq, if_pos (Finset.mem_range.mpr ha), List.map_cons,
      List.sum_cons]

theorem sum_length_filter_classes (pc : Nat) (P : Nat → Nat) :
    ∀ L : List Nat, (∀ v ∈ L, P v < pc) →
      ∑ p in Finset.range pc, (L.filter (fun v => P v == p)).length
        = L.length := by
  intro L
  induction L with
  | nil => intro _; simp
  | cons a L ih =>
    intro h
    have ha : P a < pc := h a (List.mem_cons_self a L)
    have hL : ∀ v ∈ L, P v < pc := fun v hv => h v (List.mem_cons_of_mem a hv)
    have step : ∀ p ∈ Finset.range pc,
        ((a :: L).filter (fun v => P v == p)).length
          = (if P a = p then 1 else 0)
            + (L.filter (fun v => P v == p)).length := by
      intro p _
      rcases eq_or_ne (P a) p with hp | hp
      · simp [List.filter_cons, hp]
        omega
      · simp [List.filter_cons, hp]
    rw [Finset.sum_congr rfl step, Finset.sum_add_distrib, ih hL,
      Finset.sum_ite_eq, if_pos (Finset.mem_range.mpr ha), List.length_cons]
    omega

theorem map_range_getD {α β : Type} (f : α → β) (d : α) :
    ∀ l : List α,
      (List.range l.length).map (fun v => f (l.getD v d)) = l.map f := by
  intro l
  induction l with
  | nil => simp
  | cons a l ih =>
    rw [List.length_cons, List.range_succ_eq_map, List.map_cons, List.map_map]
    simp only [Function.comp_def, List.getD_cons_zero, List.getD_cons_succ]
    rw [ih, List.map_cons]

theorem labels_getD_lt (labels : List Nat) (pc : Nat)
    (hlab : ∀ l ∈ labels, l < pc) :
    ∀ v ∈ List.range labels.length, labels.getD v 0 < pc := by
  intro v hv
  rw [List.mem_range] at hv
  rw [List.getD_eq_getElem labels 0 hv]
  exact hlab _ (List.getElem_mem hv)

/-- C3: a successful build conserves totals: over the partitions of the
resulting set, the vertex counts sum to the graph's vertex count and the edge
counts sum to the graph's edge count, the partition count lying in [1,4]. -/
theorem c3_conservation (s : Nat) (g : graph_t) (labels : List Nat) (pc : Nat)
    (ps : partition_set_t) (hb : build s g labels pc = some ps) :
    (ps.partitions.map partition_t.vertex_count).sum = g.vertex_count ∧
    (ps.partitions.map partition_t.edge_count).sum = g.edge_count ∧
    1 ≤ ps.partition_count ∧ ps.partition_count ≤ 4 := by
  unfold build at hb
  split at hb
  case isFalse => exact absurd hb (by simp)
  case isTrue h =>
    obtain ⟨h1, h2, hlen, hlab, _⟩ := h
    cases hb
    refine ⟨?_, ?_, h1, h2⟩
    · show (((List.range pc).map (mkPartition s g labels)).map
        partition_t.vertex_count).sum = g.vertex_count
      rw [List.map_map]
      show (((List.range pc).map
        (fun p => (ownedVertices labels p).length))).sum = g.vertex_count
      rw [← sum_finset_range_eq_sum_map]
      unfold ownedVertices
      rw [sum_length_filter_classes pc _ _ (labels_getD_lt labels pc hlab)]
      rw [List.length_range, hlen]
    · show (((List.range pc).map (mkPartition s g labels)).map
        partition_t.edge_count).sum = g.edge_count
      rw [List.map_map]
      have hrow : ∀ p, partition_t.edge_count (mkPartition s g labels p)
          = ((ownedVertices labels p).map
              (fun v => (g.adj.getD v []).length)).sum := by
        intro p
        show (partitionRows s g labels p).flatten.length = _
        rw [List.length_flatten]
        unfold partitionRows
        rw [List.map_map]
        simp only [Function.comp_def, List.length_map]
      simp only [Function.comp_def, hrow]
      rw [← sum_finset_range_eq_sum_map]
      unfold ownedVertices
      rw [sum_map_filter_classes pc _ _ _ (labels_getD_lt labels pc hlab), hlen]
      show ((List.range g.vertex_count).map
        (fun v => List.length (g.adj.getD v []))).sum = g.edge_count
      rw [show g.vertex_count = g.adj.length from rfl,
        map_range_getD List.length [] g.adj]
      rfl

/-! ## Local-id density -/

theorem map_localId_owned (p : Nat) :
    ∀ labels : List Nat,
      (ownedVertices labels p).map (localId labels)
        = List.range (labels.count p) := by
  intro labels
  induction labels with
  | nil => simp [ownedVertices, localId]
  | cons a tl ih =>
    unfold ownedVertices at ih ⊢
    simp only [List.length_cons, List.range_succ_eq_map, List.filter_cons,
      List.filter_map, Function.comp_def, List.getD_cons_succ,
      List.getD_cons_zero]
    rcases eq_or_ne a p with ha | ha
    · rw [if_pos (by simp [ha]), List.map_cons, List.map_map]
      have h0 : localId (a :: tl) 0 = 0 := rfl
      have hstep : ∀ v ∈ (List.range tl.length).filter
          (fun v => tl.getD v 0 == p),
          (localId (a :: tl) ∘ Nat.succ) v = Nat.succ (localId tl v) := by
        intro v hv
        have htv : tl.getD v 0 = p := by
          have := (List.mem_filter.mp hv).2
          exact beq_iff_eq.mp this
        show localId (a :: tl) (v + 1) = localId tl v + 1
        unfold localId
        rw [List.take_succ_cons, List.getD_cons_succ, List.count_cons]
        have htv' : tl[v]?.getD 0 = p := by simpa using htv
        simp [htv', ha]
      rw [h0, List.map_congr_left hstep,
        show (fun v => Nat.succ (localId tl v)) = Nat.succ ∘ localId tl
          from rfl,
        ← List.map_map, ih, List.count_cons]
      simp [ha, List.range_succ_eq_map]
    · rw [if_neg (by simp [ha]), List.map_map]
      have hstep : ∀ v ∈ (List.range tl.length).filter
          (fun v => tl.getD v 0 == p),
          (localId (a :: tl) ∘ Nat.succ) v = localId tl v := by
        intro v hv
        have htv : tl.getD v 0 = p := by
          have := (List.mem_filter.mp hv).2
          exact beq_iff_eq.mp this
        show localId (a :: tl) (v + 1) = localId tl v
        unfold localId
        rw [List.take_succ_cons, List.getD_cons_succ, List.count_cons]
        have htv' : tl[v]?.getD 0 = p := by simpa using htv
        simp [htv', ha]
      rw [List.map_congr_left hstep, ih, List.count_cons]
      simp [ha]

theorem owned_length_eq_count (labels : List Nat) (p : Nat) :
    (ownedVertices labels p).length = labels.count p := by
  have h := congrArg List.length (map_localId_owned p labels)
  simpa using h

/-- C4: in a partition set produced by a successful build, the local ids of
the vertices owned by partition `p` — listed in increasing order of first
occurrence among the vertices labeled `p` — are exactly `0, 1, ...,
vertex_count - 1`: the dense range with no gaps and no duplicates. -/
theorem c4_local_id_density (s : Nat) (g : graph_t) (labels : List Nat)
    (pc : Nat) (ps : partition_set_t) (hb : build s g labels pc = some ps)
    (p : Nat) (hp : p < pc) :
    (ownedVertices labels p).map (localId labels)
      = List.range ((ps.partitions.getD p default).vertex_count) := by
  unfold build at hb
  split at hb
  case isFalse => exact absurd hb (by simp)
  case isTrue h =>
    cases hb
    have hlt : p < ((List.range pc).map (mkPartition s g labels)).length := by
      simp [hp]
    show (ownedVertices labels p).map (localId labels)
      = List.range ((((List.range pc).map
          (mkPartition s g labels)).getD p default).vertex_count)
    rw [List.getD_eq_getElem _ _ hlt, List.getElem_map, List.getElem_range]
    show (ownedVertices labels p).map (localId labels)
      = List.range ((ownedVertices labels p).length)
    rw [owned_length_eq_count]
    exact map_localId_owned p labels

/-! ## Shared concrete instances used by the witnesses -/

/-- A 3-vertex, 3-edge test graph: 0 → 1, 0 → 2, 1 → 0. -/
def gW : graph_t := ⟨[[1, 2], [0], []], false⟩

/-- A test labeling: vertices 0 and 2 in partition 0, vertex 1 in
partition 1. -/
def labelsW : List Nat := [0, 1, 0]

/-- The partition set built from the test graph with `sizeof(id_t) = 4`. -/
def psW : partition_set_t := (build 4 gW labelsW 2).getD default

theorem c3_conservation_witness :
    (psW.partitions.map partition_t.vertex_count).sum = gW.vertex_count ∧
    (psW.partitions.map partition_t.edge_count).sum = gW.edge_count ∧
    1 ≤ psW.partition_count ∧ psW.partition_count ≤ 4 :=
  c3_conservation 4 gW labelsW 2 psW rfl

theorem c4_local_id_density_witness :
    (ownedVertices labelsW 0).map (localId labelsW)
      = List.range ((psW.partitions.getD 0 default).vertex_count) :=
  c4_local_id_density 4 gW labelsW 2 psW rfl 0 (by norm_num)

/-! ## Edge encoding -/

theorem count_take_lt_aux (labels : List Nat) (u : Nat) (x : Nat)
    (hdrop : labels.drop u = x :: labels.drop (u + 1)) :
    (labels.take u).count x < labels.count x := by
  have h2 : labels.count x
      = (labels.take u).count x + (labels.drop u).count x := by
    conv_lhs => rw [← List.take_append_drop u labels]
    rw [List.count_append]
  rw [h2, hdrop, List.count_cons_self]
  omega

theorem count_take_lt (labels : List Nat) (u : Nat) (hu : u < labels.length) :
    (labels.take u).count (labels.getD u 0)
      < labels.count (labels.getD u 0) := by
  apply count_take_lt_aux labels u
  rw [List.getD_eq_getElem labels 0 hu]
  exact List.drop_eq_getElem_cons hu

theorem getD_append_left {α : Type} (l1 l2 : List α) (n : Nat) (d : α)
    (h : n < l1.length) : (l1 ++ l2).getD n d = l1.getD n d := by
  rw [List.getD_eq_getElem?_getD, List.getD_eq_getElem?_getD,
    List.getElem?_append_left h]

theorem getD_append_right_add {α : Type} (l1 l2 : List α) (k : Nat)
    (d : α) : (l1 ++ l2).getD (l1.length + k) d = l2.getD k d := by
  rw [List.getD_eq_getElem?_getD, List.getD_eq_getElem?_getD,
    List.getElem?_append_right (Nat.le_add_right _ _),
    Nat.add_sub_cancel_left]

theorem flatten_getD {α : Type} (d : α) :
    ∀ (L : List (List α)) (r i : Nat), r < L.length →
      i < (L.getD r []).length →
      L.flatten.getD (((L.take r).map List.length).sum + i) d
        = (L.getD r []).getD i d := by
  intro L
  induction L with
  | nil =>
    intro r i hr _
    exact absurd hr (by simp)
  | cons hd tl ih =>
    intro r i hr hi
    cases r with
    | zero =>
      rw [List.getD_cons_zero] at hi
      rw [List.take_zero, List.map_nil, List.sum_nil, Nat.zero_add,
        List.flatten_cons, List.getD_cons_zero]
      exact getD_append_left hd tl.flatten i d hi
    | succ r' =>
      rw [List.getD_cons_succ] at hi
      rw [List.length_cons] at hr
      rw [List.take_succ_cons, List.map_cons, List.sum_cons,
        List.flatten_cons, List.getD_cons_succ, Nat.add_assoc,
        getD_append_right_add]
      exact ih r' i (by omega) hi

theorem offsetsOf_getD (degs : List Nat) (r : Nat) (hr : r ≤ degs.length) :
    (offsetsOf degs).getD r 0 = (degs.take r).sum := by
  unfold offsetsOf
  have hlt : r < ((List.range (degs.length + 1)).map
      (fun i => (degs.take i).sum)).length := by
    rw [List.length_map, List.length_range]
    omega
  rw [List.getD_eq_getElem _ _ hlt, List.getElem_map, List.getElem_range]

/-- Reader-side accessor: the `r`-th vertex owned by partition `p` — the
global id whose local id in `p` is `r`. -/
def srcVertex (labels : List Nat) (p r : Nat) : Nat :=
  (ownedVertices labels p).getD r 0

/-- Reader-side accessor: the global target of the `i`-th edge out of the
`r`-th vertex owned by partition `p`. -/
def tgtVertex (g : graph_t) (labels : List Nat) (p r i : Nat) : Nat :=
  (g.adj.getD (srcVertex labels p r) []).getD i 0

/-- Reader-side accessor: the stored edges-array entry of partition `p` at
CSR position `vertices[r] + i` — the `i`-th stored edge of the vertex with
local id `r`. -/
def storedEntry (ps : partition_set_t) (p r i : Nat) : Nat :=
  (ps.partitions.getD p default).edges.getD
    ((ps.partitions.getD p default).vertices.getD r 0 + i) 0

/-- C2: in a successfully built set, the stored entry at CSR position
`vertices[r] + i` of partition `p` — the `i`-th edge out of the vertex with
local id `r` — encodes that edge's actual target `tgtVertex`: it is the
plain local id when the target is assigned to `p` itself, and otherwise the
codec encoding of the target's local id and partition tag, from which
`GET_PARTITION_ID` and `GET_VERTEX_ID` recover exactly those — so a remote
neighbor is detectable from the decoded tag alone. -/
theorem c2_edge_encoding (s : Nat) (g : graph_t) (labels : List Nat)
    (pc : Nat) (ps : partition_set_t) (hs : 1 ≤ s) (hg : g.valid)
    (hb : build s g labels pc = some ps) (p : Nat) (hp : p < pc)
    (r i : Nat) (hr : r < (ps.partitions.getD p default).vertex_count)
    (hi : i < (g.adj.getD (srcVertex labels p r) []).length) :
    (labels.getD (tgtVertex g labels p r i) 0 = p →
      storedEntry ps p r i = localId labels (tgtVertex g labels p r i)) ∧
    (labels.getD (tgtVertex g labels p r i) 0 ≠ p →
      GET_PARTITION_ID s (storedEntry ps p r i)
        = labels.getD (tgtVertex g labels p r i) 0 ∧
      GET_VERTEX_ID s (storedEntry ps p r i)
        = localId labels (tgtVertex g labels p r i)) := by
  unfold build at hb
  split at hb
  case isFalse => exact absurd hb (by simp)
  case isTrue h =>
    obtain ⟨h1, h2, hlen, hlab, hcap⟩ := h
    have hps : ps.partitions = (List.range pc).map (mkPartition s g labels) := by
      cases hb
      rfl
    have hplt : p < ((List.range pc).map (mkPartition s g labels)).length := by
      simp [hp]
    have hpart : ps.partitions.getD p default = mkPartition s g labels p := by
      rw [hps, List.getD_eq_getElem _ _ hplt, List.getElem_map,
        List.getElem_range]
    have hr' : r < (ownedVertices labels p).length := by
      rw [hpart] at hr
      exact hr
    have hrows_len : (partitionRows s g labels p).length
        = (ownedVertices labels p).length := by
      unfold partitionRows
      rw [List.length_map]
    have hrowr : (partitionRows s g labels p).getD r []
        = (g.adj.getD (srcVertex labels p r) []).map
            (encodeTarget s labels p) := by
      have hrlt : r < (partitionRows s g labels p).length := by
        rw [hrows_len]
        exact hr'
      rw [List.getD_eq_getElem _ _ hrlt]
      unfold partitionRows
      rw [List.getElem_map]
      unfold srcVertex
      rw [List.getD_eq_getElem _ _ hr']
    have hmods : storedEntry ps p r i
        = encodeTarget s labels p (tgtVertex g labels p r i) := by
      unfold storedEntry
      rw [hpart]
      show (partitionRows s g labels p).flatten.getD
        ((offsetsOf ((partitionRows s g labels p).map List.length)).getD r 0
          + i) 0 = _
      have hoff : (offsetsOf ((partitionRows s g labels p).map
          List.length)).getD r 0
          = (((partitionRows s g labels p).take r).map List.length).sum := by
        rw [offsetsOf_getD _ _ (by rw [List.length_map, hrows_len]; omega),
          ← List.map_take]
      have hi' : i < ((partitionRows s g labels p).getD r []).length := by
        rw [hrowr, List.length_map]
        exact hi
      rw [hoff, flatten_getD 0 (partitionRows s g labels p) r i
        (by rw [hrows_len]; exact hr') hi', hrowr,
        List.getD_eq_getElem _ _ (by rw [List.length_map]; exact hi),
        List.getElem_map]
      unfold tgtVertex
      rw [List.getD_eq_getElem _ _ hi]
    have hvlen : srcVertex labels p r < labels.length := by
      have hmem : srcVertex labels p r ∈ ownedVertices labels p := by
        unfold srcVertex
        rw [List.getD_eq_getElem _ _ hr']
        exact List.getElem_mem hr'
      unfold ownedVertices at hmem
      have hmem' := (List.mem_filter.mp hmem).1
      rwa [List.mem_range] at hmem'
    have hva : srcVertex labels p r < g.adj.length := by
      have h' := hvlen
      rw [hlen] at h'
      exact h'
    have hu' : tgtVertex g labels p r i < g.adj.length := by
      have hadjmem : g.adj.getD (srcVertex labels p r) [] ∈ g.adj := by
        rw [List.getD_eq_getElem _ _ hva]
        exact List.getElem_mem hva
      apply hg _ hadjmem
      unfold tgtVertex
      rw [List.getD_eq_getElem _ _ hi]
      exact List.getElem_mem hi
    rw [hmods]
    unfold encodeTarget
    rcases eq_or_ne (labels.getD (tgtVertex g labels p r i) 0) p
      with ht | ht
    · constructor
      · intro _
        rw [if_pos ht]
      · intro hcon
        exact absurd ht hcon
    · constructor
      · intro hcon
        exact absurd hcon ht
      · intro _
        have hulen : tgtVertex g labels p r i < labels.length := by
          rw [hlen]
          exact hu'
        have htag : labels.getD (tgtVertex g labels p r i) 0 < pc := by
          apply hlab
          rw [List.getD_eq_getElem _ _ hulen]
          exact List.getElem_mem hulen
        have htag4 : labels.getD (tgtVertex g labels p r i) 0 < 4 :=
          lt_of_lt_of_le htag h2
        have hloc : localId labels (tgtVertex g labels p r i)
            < 2 ^ MAX_LOG_VERTEX_COUNT s := by
          have hc1 := count_take_lt labels (tgtVertex g labels p r i) hulen
          have hc2 : labels.count (labels.getD (tgtVertex g labels p r i) 0)
              ≤ 2 ^ MAX_LOG_VERTEX_COUNT s := by
            have hcap' := hcap (labels.getD (tgtVertex g labels p r i) 0)
              (by rw [List.mem_range]; exact htag)
            rwa [owned_length_eq_count] at hcap'
          unfold localId
          omega
        have hrt := set_get_roundtrip s
          (labels.getD (tgtVertex g labels p r i) 0)
          (localId labels (tgtVertex g labels p r i)) hs htag4 hloc
        rw [if_neg ht]
        exact ⟨hrt.1, hrt.2⟩

theorem c2_edge_encoding_witness :
    (labelsW.getD (tgtVertex gW labelsW 0 0 0) 0 = 0 →
      storedEntry psW 0 0 0
        = localId labelsW (tgtVertex gW labelsW 0 0 0)) ∧
    (labelsW.getD (tgtVertex gW labelsW 0 0 0) 0 ≠ 0 →
      GET_PARTITION_ID 4 (storedEntry psW 0 0 0)
        = labelsW.getD (tgtVertex gW labelsW 0 0 0) 0 ∧
      GET_VERTEX_ID 4 (storedEntry psW 0 0 0)
        = localId labelsW (tgtVertex gW labelsW 0 0 0)) :=
  c2_edge_encoding 4 gW labelsW 2 psW (by norm_num) (by decide) rfl 0
    (by norm_num) 0 0 (by decide) (by decide)

/-! ## Random partitioner, modelled from the spec (section 4.2) -/

/-- Modelled from the spec: the body of `partition_random` is missing from the
sources.  A C `rand_r`-style linear congruential generator stands for the
seeded, reproducible pseudorandom sequence of spec 4.2. -/
def lcg (x : Nat) : Nat := (x * 1103515245 + 12345) % 2 ^ 31

/-- Value of the seeded pseudorandom sequence at index `i`. -/
def randAt (seed : Nat) : Nat → Nat
  | 0 => lcg seed
  | i + 1 => lcg (randAt seed i)

/-- Modelled from the spec (4.2): one tag per vertex, drawn from the seeded
sequence and reduced modulo the partition count. -/
def randomLabels (seed pcn n : Nat) : List Nat :=
  (List.range n).map (fun i => randAt seed i % pcn)

/-- Modelled from the spec: `partition_random` is declared in
`totem_partition.h` (line 93) but its body is not among the sources.
Spec 4.2: fails with a null output (`none`) if the partition count lies
outside [1,4], the graph reference is invalid (`none`), or allocation of the
labels array fails (`allocOk = false`); otherwise returns one tag per
vertex. -/
def partition_random (allocOk : Bool) (graph : Option graph_t) (pc : Int)
    (seed : Nat) : Option (List Nat) :=
  if pc < 1 ∨ 4 < pc then none
  else if allocOk = false then none
  else
    match graph with
    | none => none
    | some g => some (randomLabels seed pc.toNat g.vertex_count)

/-- C6: the random assignment is deterministic — two calls with the same
graph, the same partition count, the same seed (and the same allocation
outcome) produce bit-identical label arrays. -/
theorem c6_random_determinism (a1 a2 : Bool) (g1 g2 : Option graph_t)
    (pc1 pc2 : Int) (s1 s2 : Nat) (ha : a1 = a2) (hg : g1 = g2)
    (hpc : pc1 = pc2) (hs : s1 = s2) :
    partition_random a1 g1 pc1 s1 = partition_random a2 g2 pc2 s2 := by
  subst ha hg hpc hs
  rfl

theorem c6_random_determinism_witness :
    partition_random true (some gW) 2 42 = partition_random true (some gW)
      2 42 :=
  c6_random_determinism true true (some gW) (some gW) 2 2 42 42 rfl rfl
    rfl rfl

/-- C8: `partition_random` fails with a null output whenever the partition
count lies outside [1,4], the graph reference is invalid, or the labels
allocation fails; otherwise it succeeds with one tag per vertex, every tag
lying below the partition count. -/
theorem c8_random_failure (allocOk : Bool) (graph : Option graph_t)
    (pc : Int) (seed : Nat) :
    ((pc < 1 ∨ 4 < pc ∨ graph = none ∨ allocOk = false) →
      partition_random allocOk graph pc seed = none) ∧
    (∀ g, graph = some g → 1 ≤ pc → pc ≤ 4 → allocOk = true →
      ∃ ls, partition_random allocOk graph pc seed = some ls ∧
        ls.length = g.vertex_count ∧ ∀ x ∈ ls, x < pc.toNat) := by
  constructor
  · intro h
    unfold partition_random
    rcases h with h | h | h | h
    · rw [if_pos (Or.inl h)]
    · rw [if_pos (Or.inr h)]
    · subst h
      split
      · rfl
      · split
        · rfl
        · rfl
    · subst h
      split
      · rfl
      · rw [if_pos rfl]
  · intro g hgr h1 h2 hal
    subst hgr
    subst hal
    refine ⟨randomLabels seed pc.toNat g.vertex_count, ?_, ?_, ?_⟩
    · unfold partition_random
      rw [if_neg (by omega), if_neg (by simp)]
    · unfold randomLabels
      rw [List.length_map, List.length_range]
    · intro x hx
      unfold randomLabels at hx
      rw [List.mem_map] at hx
      obtain ⟨i, _, hxeq⟩ := hx
      have hpos : 0 < pc.toNat := by omega
      exact hxeq ▸ Nat.mod_lt _ hpos

theorem c8_random_failure_witness :
    partition_random true (some gW) 5 7 = none ∧
    ∃ ls, partition_random true (some gW) 2 7 = some ls ∧
      ls.length = gW.vertex_count ∧ ∀ x ∈ ls, x < (2 : Int).toNat :=
  ⟨(c8_random_failure true (some gW) 5 7).1 (by norm_num),
   (c8_random_failure true (some gW) 2 7).2 gW rfl (by norm_num)
     (by norm_num) rfl⟩

/-! ## Engine configuration (the totem.h part of the header) -/

/-- The `platform_t` enum of the header (lines 139-144 of the source file). -/
inductive platform_t where
  | PLATFORM_CPU
  | PLATFORM_GPU
  | PLATFORM_HYBRID
  | PLATFORM_MAX
deriving DecidableEq

/-- The `partition_algorithm_t` enum of the header (lines 149-154). -/
inductive partition_algorithm_t where
  | PAR_RANDOM
  | PAR_SORTED_ASC
  | PAR_SORTED_DSC
  | PAR_MAX
deriving DecidableEq

/-- Modelled from the spec: `gpu_graph_mem_t` comes from `totem_graph.h`,
which is not among the sources; section 3 only needs a device-resident mode
and an alternative placement mode. -/
inductive gpu_graph_mem_t where
  | GPU_GRAPH_MEM_DEVICE
  | GPU_GRAPH_MEM_MAPPED
deriving DecidableEq

/-- Modelled from the spec: `MSG_SIZE_WORD` comes from `totem_comdef.h`,
absent from the sources; a machine word is 32 bits here. -/
def MSG_SIZE_WORD : Nat := 32

/-- Modelled from the spec: `MSG_SIZE_ZERO` (`totem_comdef.h`, absent). -/
def MSG_SIZE_ZERO : Nat := 0

/-- The `totem_attr_s` struct (lines 165-189).  The C `float`
`cpu_par_share` is modelled as a rational; the callback pointers hold
`none` for C's NULL. -/
structure totem_attr_t where
  par_algo : partition_algorithm_t
  platform : platform_t
  gpu_count : Nat
  gpu_graph_mem : gpu_graph_mem_t
  gpu_par_randomized : Bool
  cpu_par_share : Rat
  push_msg_size : Nat
  pull_msg_size : Nat
  alloc_func : Option (partition_t → partition_t)
  free_func : Option (partition_t → partition_t)

/-- The `TOTEM_DEFAULT_ATTR` macro (lines 193-195). -/
def TOTEM_DEFAULT_ATTR : totem_attr_t :=
  ⟨partition_algorithm_t.PAR_RANDOM, platform_t.PLATFORM_HYBRID, 1,
   gpu_graph_mem_t.GPU_GRAPH_MEM_DEVICE, false, 1 / 2, MSG_SIZE_WORD,
   MSG_SIZE_ZERO, none, none⟩

/-- C9: the default attributes record selects the hybrid platform with one
GPU, random partitioning, device-resident GPU graph memory, non-randomized
GPU vertex placement, a CPU edge share of one half, word-sized push messages,
zero-sized pull messages, and null allocate/free callbacks. -/
theorem c9_default_attr :
    TOTEM_DEFAULT_ATTR.par_algo = partition_algorithm_t.PAR_RANDOM ∧
    TOTEM_DEFAULT_ATTR.platform = platform_t.PLATFORM_HYBRID ∧
    TOTEM_DEFAULT_ATTR.gpu_count = 1 ∧
    TOTEM_DEFAULT_ATTR.gpu_graph_mem
      = gpu_graph_mem_t.GPU_GRAPH_MEM_DEVICE ∧
    TOTEM_DEFAULT_ATTR.gpu_par_randomized = false ∧
    TOTEM_DEFAULT_ATTR.cpu_par_share = 1 / 2 ∧
    TOTEM_DEFAULT_ATTR.push_msg_size = MSG_SIZE_WORD ∧
    TOTEM_DEFAULT_ATTR.pull_msg_size = MSG_SIZE_ZERO ∧
    TOTEM_DEFAULT_ATTR.alloc_func = none ∧
    TOTEM_DEFAULT_ATTR.free_func = none :=
  ⟨rfl, rfl, rfl, rfl, rfl, rfl, rfl, rfl, rfl, rfl⟩

/-! ## Engine lifecycle, modelled from the spec (section 4.4) -/

/-- Engine state stored by a successful `totem_init`. -/
structure totem_state_t where
  pset : partition_set_t
  attr : totem_attr_t
  partition_count : Nat

instance : Inhabited totem_state_t := ⟨⟨default, TOTEM_DEFAULT_ATTR, 0⟩⟩

/-- Modelled from the spec (4.4): 1 for the CPU platform, the GPU count for
the GPU platform, the GPU count plus one for HYBRID.  `PLATFORM_MAX` is a
sentinel that validation rejects before this is used. -/
def derive_partition_count (platform : platform_t) (gpu_count : Nat) : Nat :=
  match platform with
  | platform_t.PLATFORM_CPU => 1
  | platform_t.PLATFORM_GPU => gpu_count
  | platform_t.PLATFORM_HYBRID => gpu_count + 1
  | platform_t.PLATFORM_MAX => 0

/-- Modelled from the spec: the seed the engine hands to the partitioner;
the spec leaves its value unspecified, so it is a fixed constant. -/
def ENGINE_SEED : Nat := 1

/-- Modelled from the spec: `totem_init` is declared in the header (line 227)
but its body is not among the sources.  Spec 4.4: validate the configuration
(platform in range; for GPU/HYBRID a GPU count between 1 and the available
devices `gpu_available`; a CPU share in [0,1]), derive the partition count,
run the partitioner and the builder, and store the engine state; any failure
rolls back to no state (`none`).  `s` is `sizeof(id_t)`. -/
def totem_init (s gpu_available : Nat) (g : graph_t) (attr : totem_attr_t) :
    Option totem_state_t :=
  if attr.platform = platform_t.PLATFORM_MAX then none
  else if (attr.platform = platform_t.PLATFORM_GPU ∨
           attr.platform = platform_t.PLATFORM_HYBRID) ∧
          (attr.gpu_count < 1 ∨ gpu_available < attr.gpu_count) then none
  else if ¬ (0 ≤ attr.cpu_par_share ∧ attr.cpu_par_share ≤ 1) then none
  else
    match partition_random true (some g)
        ((derive_partition_count attr.platform attr.gpu_count : Nat) : Int)
        ENGINE_SEED with
    | none => none
    | some labels =>
      match build s g labels
          (derive_partition_count attr.platform attr.gpu_count) with
      | none => none
      | some ps =>
        some ⟨ps, attr, derive_partition_count attr.platform attr.gpu_count⟩

/-- Query `totem_partition_count` (header line 247): the number of partitions held
by the initialized engine state. -/
def totem_partition_count (st : totem_state_t) : Nat := st.partition_count

/-- C5: after a successful `totem_init`, the reported partition count is 1
for the CPU platform, the GPU count for the GPU platform, and the GPU count
plus one for the HYBRID platform. -/
theorem c5_platform_derivation (s ga : Nat) (g : graph_t)
    (attr : totem_attr_t) (st : totem_state_t)
    (hi : totem_init s ga g attr = some st) :
    (attr.platform = platform_t.PLATFORM_CPU →
      totem_partition_count st = 1) ∧
    (attr.platform = platform_t.PLATFORM_GPU →
      totem_partition_count st = attr.gpu_count) ∧
    (attr.platform = platform_t.PLATFORM_HYBRID →
      totem_partition_count st = attr.gpu_count + 1) := by
  have hpc : totem_partition_count st
      = derive_partition_count attr.platform attr.gpu_count := by
    unfold totem_init at hi
    split at hi
    · exact absurd hi (by simp)
    · split at hi
      · exact absurd hi (by simp)
      · split at hi
        · exact absurd hi (by simp)
        · split at hi
          · exact absurd hi (by simp)
          · split at hi
            · exact absurd hi (by simp)
            · cases hi
              rfl
  refine ⟨?_, ?_, ?_⟩ <;> intro hplat <;> rw [hpc, hplat] <;> rfl

def attrW : totem_attr_t :=
  ⟨partition_algorithm_t.PAR_RANDOM, platform_t.PLATFORM_CPU, 0,
   gpu_graph_mem_t.GPU_GRAPH_MEM_DEVICE, false, 1 / 2, MSG_SIZE_WORD,
   MSG_SIZE_ZERO, none, none⟩

def stW : totem_state_t :=
  ⟨⟨false, [mkPartition 4 gW [0, 0, 0] 0], 1⟩, attrW, 1⟩

theorem totem_init_stW : totem_init 4 0 gW attrW = some stW := by
  unfold totem_init
  rw [if_neg (by simp [attrW]), if_neg (by simp [attrW]),
    if_neg (by simp [attrW]; norm_num)]
  rfl

theorem c5_platform_derivation_witness :
    (attrW.platform = platform_t.PLATFORM_CPU →
      totem_partition_count stW = 1) ∧
    (attrW.platform = platform_t.PLATFORM_GPU →
      totem_partition_count stW = attrW.gpu_count) ∧
    (attrW.platform = platform_t.PLATFORM_HYBRID →
      totem_partition_count stW = attrW.gpu_count + 1) :=
  c5_platform_derivation 4 0 gW attrW stW totem_init_stW

/-! ## Build atomicity under allocation failure (spec 4.3 step 7) -/

/-- Outcome of an allocation-instrumented build: the produced set (or `none`
on failure), the number of allocations performed, and the number of frees
performed. -/
structure build_trace_t where
  result : Option partition_set_t
  allocated : Nat
  freed : Nat

/-- Modelled from the spec (4.3 step 3): the number of array allocations a
build performs — one partitions array, then per partition an offsets array,
an edges array, and a weights array when the graph is weighted. -/
def allocCount (g : graph_t) (pc : Nat) : Nat :=
  1 + pc * (2 + if g.weighted then 1 else 0)

/-- Modelled from the spec (4.3 step 7): `oracle j` says whether the j-th
allocation request succeeds.  After validation, allocations are attempted in
order; at the first failure the builder frees everything allocated so far and
fails with a null output, so no partially constructed set escapes. -/
def buildAlloc (oracle : Nat → Bool) (s : Nat) (g : graph_t)
    (labels : List Nat) (pc : Nat) : build_trace_t :=
  if 1 ≤ pc ∧ pc ≤ 4 ∧ labels.length = g.vertex_count
      ∧ (∀ l ∈ labels, l < pc)
      ∧ (∀ p ∈ List.range pc,
          (ownedVertices labels p).length ≤ 2 ^ MAX_LOG_VERTEX_COUNT s)
  then
    if ((List.range (allocCount g pc)).takeWhile oracle).length
        = allocCount g pc
    then ⟨build s g labels pc, allocCount g pc, 0⟩
    else ⟨none, ((List.range (allocCount g pc)).takeWhile oracle).length,
          ((List.range (allocCount g pc)).takeWhile oracle).length⟩
  else ⟨none, 0, 0⟩

/-- C7: whenever the build fails — at validation or at any allocation — the
caller sees a null output, and every allocation made along the way has been
freed again: no partially constructed partition set is observable. -/
theorem c7_build_atomicity (oracle : Nat → Bool) (s : Nat) (g : graph_t)
    (labels : List Nat) (pc : Nat)
    (hf : (buildAlloc oracle s g labels pc).result = none) :
    (buildAlloc oracle s g labels pc).freed
      = (buildAlloc oracle s g labels pc).allocated := by
  unfold buildAlloc at hf ⊢
  split at hf
  case isFalse h =>
    rw [if_neg h]
  case isTrue h =>
    rw [if_pos h]
    split at hf
    case isTrue hall =>
      exfalso
      have hb : build s g labels pc = none := hf
      unfold build at hb
      rw [if_pos h] at hb
      exact absurd hb (by simp)
    case isFalse hall =>
      rw [if_neg hall]

/-- An allocation oracle that fails the third request. -/
def oracleW : Nat → Bool := fun j => j != 2

theorem c7_build_atomicity_witness :
    (buildAlloc oracleW 4 gW labelsW 2).freed
      = (buildAlloc oracleW 4 gW labelsW 2).allocated :=
  c7_build_atomicity oracleW 4 gW labelsW 2 (by decide)

end Totem
